import Mathlib

/-!
Shallow embedding of the reconciliation engine of `store_watcher`
(`src/store_watcher/core.py`), the per-tick algorithm that merges freshly
observed items with persisted item records, drives the per-item presence
state machine, applies change tracking and the restock-window rule, and
performs the key migration and detail re-check passes.

Modelling conventions:
* Python dicts holding item records are modelled as association lists
  (`SMap`), with `alookup`/`ainsert` reproducing dict lookup and
  insertion-order-preserving assignment.
* ISO-8601 timestamp strings (produced by `utcnow_iso` and compared after
  `iso_to_dt`) are modelled as integers (`Time`); the conversion is
  order-preserving and injective, and the engine only ever stores the
  current tick's timestamp, which is never the empty string.
* A missing dict key is `none`; Python string truthiness (`if s:`) is the
  test `s ≠ ""` on present values.
* The external adapter calls (`fetch`, `fetch_details`) and the URL
  prettifier `pretty_name_from_url` are inputs of the tick: `fetch_details`
  raising or returning a falsy value is `none` (core catches every
  exception and skips), and the prettifier is an arbitrary
  `String → Option String`.
-/

namespace StoreWatcher

/-- Timestamps: integer model of ISO-8601 instants. -/
abbrev Time := Int

/-- An item observation produced by the adapter for one tick
(`adapters` `Item`: the fields read by `core.tick`). -/
structure Item where
  code : String
  url : String := ""
  title : Option String := none
  price : Option String := none
  image : Option String := none
  availability : Option String := none
  available : Option Bool := none
  in_stock_allocation : Option Int := none
deriving Repr, DecidableEq

/-- A persisted item record (the per-key dict of `core.py`).  Every field is
optional: `none` means the dict key is absent. -/
structure Record where
  url : Option String := none
  first_seen : Option Time := none
  status : Option Int := none
  status_since : Option Time := none
  name : Option String := none
  host : Option String := none
  image : Option String := none
  price : Option String := none
  prev_price : Option String := none
  price_changed : Option Bool := none
  availability_message : Option String := none
  prev_availability_message : Option String := none
  availability_changed : Option Bool := none
  available : Option Bool := none
  prev_available : Option (Option Bool) := none
  in_stock_allocation : Option Int := none
deriving Repr, DecidableEq

/-- The state map: a Python dict from composite key to record, modelled as an
insertion-ordered association list. -/
abbrev SMap := List (String × Record)

/-- Dict lookup (`d.get(k)`). -/
def alookup {β : Type} (k : String) : List (String × β) → Option β
  | [] => none
  | (k', v) :: rest => if k' = k then some v else alookup k rest

/-- Dict assignment (`d[k] = v`): overwrite in place, else append. -/
def ainsert {β : Type} (k : String) (v : β) : List (String × β) → List (String × β)
  | [] => [(k, v)]
  | (k', v') :: rest => if k' = k then (k, v) :: rest else (k', v') :: ainsert k v rest

/-- Python string truthiness of an optional string (`if s:`). -/
def truthy : Option String → Bool
  | some s => s ≠ ""
  | none => false

/-- Python `a or b` on two optional strings (falsy = `None` or `""`). -/
def pyOrStr : Option String → Option String → Option String
  | some a, b => if a = "" then b else some a
  | none, b => b

/-- Split a character list at the first occurrence of `sep`
(`k.split(sep, 1)` when `sep in k`). -/
def splitFirst (sep : Char) : List Char → Option (List Char × List Char)
  | [] => none
  | c :: cs =>
    if c = sep then some ([], cs)
    else (splitFirst sep cs).map (fun p => (c :: p.1, p.2))

/-- Whether a key contains a colon (`":" in k`). -/
def hasColon (k : String) : Bool := k.toList.contains ':'

/-- Host component of a composite key: `k.split(":", 1)[0]`. -/
def hostOf (k : String) : String :=
  match splitFirst ':' k.toList with
  | some p => String.mk p.1
  | none => k

/-- Code component of a composite key: `k.split(":", 1)[-1]` (the whole key
when it has no colon). -/
def codeOf (k : String) : String :=
  match splitFirst ':' k.toList with
  | some p => String.mk p.2
  | none => k

/-- `core._make_present_record`: a freshly created record.  Truthy-only
fields are dropped when empty, exactly as the Python `if name:` guards do. -/
def makePresentRecord (url : String) (now : Time) (name : Option String)
    (host : Option String) (image : Option String) (price : Option String)
    (availability_message : Option String) (available : Option Bool)
    (in_stock_allocation : Option Int) (status : Int) : Record :=
  { url := some url
    first_seen := some now
    status := some status
    status_since := some now
    name := if truthy name then name else none
    host := if truthy host then host else none
    image := if truthy image then image else none
    price := if truthy price then price else none
    price_changed := some false
    availability_message := if truthy availability_message then availability_message else none
    availability_changed := some false
    available := available
    in_stock_allocation := in_stock_allocation }

/-- `core._apply_change_tracking`: recompute the per-tick change flags and
roll `prev_*` values for price, availability message and boolean
availability. -/
def applyChangeTracking (info : Record) (price : Option String)
    (availability_message : Option String) (available : Option Bool) : Record :=
  let info :=
    if truthy price ∧ price ≠ info.price then
      { info with prev_price := some (info.price.getD "")
                  price := price
                  price_changed := some true }
    else { info with price_changed := some false }
  let acFromMsg : Bool := truthy availability_message ∧
      availability_message ≠ info.availability_message
  let info :=
    if truthy availability_message ∧ availability_message ≠ info.availability_message then
      { info with prev_availability_message := some (info.availability_message.getD "")
                  availability_message := availability_message }
    else info
  let info :=
    match available with
    | some b =>
      if some b ≠ info.available then
        { info with prev_available := some info.available
                    available := some b
                    availability_changed := some true }
      else { info with availability_changed := some acFromMsg }
    | none => { info with availability_changed := some acFromMsg }
  info

/-- One entry of the key-migration loop in `core._migrate_keys_to_composite`:
keep composite keys, prefix legacy keys with the default host, and
`setdefault` the record's `host` field. -/
def migrateStep (default_host : String) (upgraded : SMap) (e : String × Record) : SMap :=
  if hasColon e.1 then
    let v := if e.2.host.isSome then e.2 else { e.2 with host := some (hostOf e.1) }
    ainsert e.1 v upgraded
  else
    let v := if e.2.host.isSome then e.2 else { e.2 with host := some default_host }
    ainsert (default_host ++ ":" ++ e.1) v upgraded

/-- `core._migrate_keys_to_composite`: upgrade legacy keys `code` to
`default_host:code` and make every record carry a `host` field
(`setdefault`). -/
def migrateKeysToComposite (state : SMap) (default_host : String) : SMap :=
  state.foldl (migrateStep default_host) []

/-- Accumulator of the observation loop at the top of `core.tick`: the
deduplicated present-key set (in first-insertion order), the running
`site_current_count`, and the per-key ephemeral-field dicts. -/
structure ObsAccum where
  present : List String := []
  count : Nat := 0
  urls : List (String × String) := []
  names : List (String × String) := []
  images : List (String × String) := []
  prices : List (String × String) := []
  msgs : List (String × String) := []
  avails : List (String × Option Bool) := []
  allocs : List (String × Option Int) := []
deriving Repr

/-- One iteration of the observation loop (`for it in items_iter:`). -/
def obsStep (h : String) (pn : String → Option String) (acc : ObsAccum) (it : Item) :
    ObsAccum :=
  let key := h ++ ":" ++ it.code
  { present := if key ∈ acc.present then acc.present else acc.present ++ [key]
    count := if it.available = some false then acc.count else acc.count + 1
    avails := ainsert key it.available acc.avails
    urls := if it.url ≠ "" then ainsert key it.url acc.urls else acc.urls
    names :=
      if truthy it.title then ainsert key (it.title.getD "") acc.names
      else if it.url ≠ "" then
        match pn it.url with
        | some f => if f ≠ "" then ainsert key f acc.names else acc.names
        | none => acc.names
      else acc.names
    images := if truthy it.image then ainsert key (it.image.getD "") acc.images else acc.images
    prices := if truthy it.price then ainsert key (it.price.getD "") acc.prices else acc.prices
    msgs :=
      if truthy it.availability then ainsert key (it.availability.getD "") acc.msgs
      else acc.msgs
    allocs := ainsert key it.in_stock_allocation acc.allocs }

/-- The whole observation loop over one tick's fetched items. -/
def observe (h : String) (pn : String → Option String) (obs : List Item) : ObsAccum :=
  obs.foldl (obsStep h pn) {}

/-- One record of the absence sweep (`# mark absences (only for our host)`). -/
def sweepOne (h : String) (present : List String) (now : Time) (k : String)
    (info : Record) : Record :=
  if hostOf k = h ∧ k ∉ present ∧ info.status.getD 1 = 1 then
    { info with status := some 0, status_since := some now }
  else info

/-- The absence sweep over the whole state map. -/
def markAbsences (h : String) (present : List String) (now : Time) (st : SMap) : SMap :=
  st.map (fun e => (e.1, sweepOne h present now e.1 e.2))

/-- First half of the `else` branch of the present-key merge: the
url/name/image display-field updates. -/
def mergeDisplayUpdates (preferred_url : String) (preferred_name : Option String)
    (preferred_img : String) (info : Record) : Record :=
  let info :=
    if preferred_url ≠ "" ∧ preferred_url ≠ info.url.getD "" then
      { info with url := some preferred_url }
    else info
  let info :=
    match preferred_name with
    | some n => if n ≠ "" ∧ some n ≠ info.name then { info with name := some n } else info
    | none => info
  let info :=
    if preferred_img ≠ "" ∧ info.image.getD "" = "" then { info with image := some preferred_img }
    else info
  info

/-- Second half of the `else` branch of the present-key merge: change
tracking, allocation, host `setdefault`, and the status transition.
Returns the updated record and whether the key was recorded as restocked. -/
def mergeTrackingAndStatus (h : String) (delta : Int) (now : Time)
    (preferred_price : Option String) (preferred_msg : Option String)
    (preferred_available : Option Bool) (preferred_alloc : Option Int)
    (info : Record) : Record × Bool :=
  let info := applyChangeTracking info preferred_price preferred_msg preferred_available
  let info :=
    match preferred_alloc with
    | some a => { info with in_stock_allocation := some a }
    | none => info
  let info := if info.host.isSome then info else { info with host := some h }
  if preferred_available = some false then
    let info :=
      if info.status.getD 0 ≠ 0 then { info with status_since := some now } else info
    ({ info with status := some 0 }, false)
  else
    if info.status.getD 0 = 0 then
      ({ info with status := some 1, status_since := some now },
        decide (now - info.status_since.getD now ≥ delta))
    else ({ info with status := some 1 }, false)

/-- The `else` branch of the present-key merge: update an existing record.
Returns the updated record and whether the key was recorded as restocked. -/
def mergeExisting (h : String) (delta : Int) (now : Time) (preferred_url : String)
    (preferred_name : Option String) (preferred_img : String)
    (preferred_price : Option String) (preferred_msg : Option String)
    (preferred_available : Option Bool) (preferred_alloc : Option Int)
    (info : Record) : Record × Bool :=
  mergeTrackingAndStatus h delta now preferred_price preferred_msg preferred_available
    preferred_alloc (mergeDisplayUpdates preferred_url preferred_name preferred_img info)

/-- The body of the present-key merge for one key, as a function of the
stored record (`state.get(key)`).  Returns the record to store, whether the
key is recorded as new, and whether it is recorded as restocked. -/
def mergeRecord (h : String) (delta : Int) (now : Time) (acc : ObsAccum) (key : String)
    (stored : Option Record) : Record × Bool × Bool :=
  let storedR := stored.getD {}
  let preferred_url := (alookup key acc.urls).getD (storedR.url.getD "")
  let preferred_name := pyOrStr (alookup key acc.names) storedR.name
  let preferred_img := (alookup key acc.images).getD (storedR.image.getD "")
  let preferred_price := pyOrStr (alookup key acc.prices) storedR.price
  let preferred_msg := pyOrStr (alookup key acc.msgs) storedR.availability_message
  let preferred_available :=
    match alookup key acc.avails with
    | some v => v
    | none => some (storedR.available.getD true)
  let preferred_alloc :=
    match alookup key acc.allocs with
    | some v => v
    | none => storedR.in_stock_allocation
  match stored with
  | none =>
    (makePresentRecord preferred_url now preferred_name (some h)
      (if preferred_img = "" then none else some preferred_img) preferred_price
      preferred_msg preferred_available preferred_alloc
      (if preferred_available = some false then 0 else 1),
      true, false)
  | some info =>
    let r := mergeExisting h delta now preferred_url preferred_name preferred_img
      preferred_price preferred_msg preferred_available preferred_alloc info
    (r.1, false, r.2)

/-- The present-key merge loop (`for key in present_keys:`), threading the
state map and the `new` / `restocked` accumulators. -/
def mergeFold (h : String) (delta : Int) (now : Time) (acc : ObsAccum)
    (keys : List String) (st : SMap) (news rest : List String) :
    SMap × List String × List String :=
  match keys with
  | [] => (st, news, rest)
  | k :: ks =>
    let r := mergeRecord h delta now acc k (alookup k st)
    mergeFold h delta now acc ks (ainsert k r.1 st)
      (news ++ if r.2.1 then [k] else []) (rest ++ if r.2.2 then [k] else [])

/-- Non-status part of the detail re-check body: url/name/image refresh,
change tracking, and the allocation update. -/
def detailFieldUpdates (info : Record) (it : Item) : Record :=
  let info := if it.url ≠ "" then { info with url := some it.url } else info
  let info := if truthy it.title then { info with name := it.title } else info
  let info :=
    if truthy it.image ∧ info.image.getD "" = "" then { info with image := it.image }
    else info
  let info := applyChangeTracking info it.price it.availability it.available
  let info :=
    match it.in_stock_allocation with
    | some a => { info with in_stock_allocation := some a }
    | none => info
  info

/-- The per-record body of the detail re-check pass, applied to a stored
record and a successfully fetched detail observation.  `prev_status` and
`prev_since` are read from the stored record before any update.  Returns
the updated record and whether the key was recorded as restocked. -/
def detailApply (delta : Int) (now : Time) (info₀ : Record) (it : Item) : Record × Bool :=
  let prev_status := info₀.status.getD 0
  let prev_since := info₀.status_since.getD now
  let info := detailFieldUpdates info₀ it
  match it.available with
  | some false =>
    let info := if prev_status ≠ 0 then { info with status_since := some now } else info
    ({ info with status := some 0 }, false)
  | some true =>
    if prev_status = 0 then
      ({ info with status := some 1, status_since := some now },
        decide (now - prev_since ≥ delta))
    else ({ info with status := some 1 }, false)
  | none => (info, false)

/-- One iteration of the detail re-check loop for one stored key: skip keys
in the present set, skip failed lookups (`fetch_details` raising or
returning a falsy value), otherwise update the record. -/
def detailStep (delta : Int) (now : Time) (fd : String → Option Item)
    (present : List String) (st : SMap) (key : String) : SMap × Bool :=
  if key ∈ present then (st, false)
  else
    match fd (codeOf key) with
    | none => (st, false)
    | some it =>
      match alookup key st with
      | none => (st, false)
      | some info =>
        let r := detailApply delta now info it
        (ainsert key r.1 st, r.2)

/-- The detail re-check loop over a snapshot of this host's keys. -/
def detailFold (delta : Int) (now : Time) (fd : String → Option Item)
    (present : List String) (keys : List String) (st : SMap) (rest : List String) :
    SMap × List String :=
  match keys with
  | [] => (st, rest)
  | k :: ks =>
    let r := detailStep delta now fd present st k
    detailFold delta now fd present ks r.1 (rest ++ if r.2 then [k] else [])

/-- Result of one tick: the next state map, the keys recorded as new, the
keys recorded as restocked, and `site_current_count`. -/
structure TickResult where
  state : SMap
  new_keys : List String
  restocked_keys : List String
  present_count : Nat
deriving Repr

/-- `core.tick`: one reconciliation cycle.  `h` is the managed host,
`delta` the restock window, `fd` the detail fetcher and `pn` the
URL-to-name prettifier. -/
def tick (h : String) (delta : Int) (now : Time) (fd : String → Option Item)
    (pn : String → Option String) (obs : List Item) (st : SMap) : TickResult :=
  let acc := observe h pn obs
  let st1 := markAbsences h acc.present now st
  let m := mergeFold h delta now acc acc.present st1 [] []
  let hostKeys := (m.1.map Prod.fst).filter (fun k => hostOf k = h)
  let d := detailFold delta now fd acc.present hostKeys m.1 []
  { state := d.1
    new_keys := m.2.1
    restocked_keys := m.2.2 ++ d.2
    present_count := acc.count }

/-- The inputs of one tick that vary between ticks of a run. -/
structure TickInput where
  now : Time
  obs : List Item
  fd : String → Option Item
  pn : String → Option String

/-- State evolution across a sequence of ticks with fixed managed host and
restock window. -/
def runTicks (h : String) (delta : Int) (inputs : List TickInput) (st : SMap) : SMap :=
  match inputs with
  | [] => st
  | inp :: rest => runTicks h delta rest (tick h delta inp.now inp.fd inp.pn inp.obs st).state

/-- A tick observes `key` with an availability signal that is not explicitly
false: the key is in the deduplicated present set, and its effective (last
observed) availability for the tick is not `False`. -/
def obsOK (h key : String) (inp : TickInput) : Prop :=
  key ∈ (observe h inp.pn inp.obs).present ∧
  ∃ av, alookup key (observe h inp.pn inp.obs).avails = some av ∧ av ≠ some false

/-! ### Association-list lemmas -/

theorem alookup_ainsert_self {β : Type} (k : String) (v : β) (l : List (String × β)) :
    alookup k (ainsert k v l) = some v := by
  induction l with
  | nil => simp [alookup, ainsert]
  | cons e rest ih =>
    by_cases h : e.1 = k
    · simp [alookup, ainsert, h]
    · simp [alookup, ainsert, h, ih]

theorem alookup_ainsert_ne {β : Type} {k k' : String} (h : k' ≠ k) (v : β)
    (l : List (String × β)) : alookup k (ainsert k' v l) = alookup k l := by
  induction l with
  | nil => simp [alookup, ainsert, h]
  | cons e rest ih =>
    by_cases he : e.1 = k'
    · simp [alookup, ainsert, he, h]
    · simp only [ainsert, if_neg he, alookup]
      by_cases hek : e.1 = k
      · simp [hek]
      · simp [hek, ih]

theorem mem_ainsert {β : Type} {e : String × β} {k : String} {v : β}
    {l : List (String × β)} (h : e ∈ ainsert k v l) : e = (k, v) ∨ e ∈ l := by
  induction l with
  | nil => simpa [ainsert] using h
  | cons e' rest ih =>
    by_cases he : e'.1 = k
    · simp only [ainsert, if_pos he, List.mem_cons] at h
      rcases h with h | h
      · exact Or.inl h
      · exact Or.inr (List.mem_cons_of_mem _ h)
    · simp only [ainsert, if_neg he, List.mem_cons] at h
      rcases h with h | h
      · exact Or.inr (h ▸ List.mem_cons_self _ _)
      · rcases ih h with h | h
        · exact Or.inl h
        · exact Or.inr (List.mem_cons_of_mem _ h)

theorem ainsert_keys_nodup {β : Type} {l : List (String × β)} (k : String) (v : β)
    (h : (l.map Prod.fst).Nodup) : ((ainsert k v l).map Prod.fst).Nodup := by
  induction l with
  | nil => simp [ainsert]
  | cons e rest ih =>
    obtain ⟨ek, ev⟩ := e
    by_cases he : ek = k
    · simpa [ainsert, he] using h
    · simp only [List.map_cons, List.nodup_cons] at h
      have hk : ek ∉ (ainsert k v rest).map Prod.fst := by
        intro hmem
        rcases List.mem_map.1 hmem with ⟨e', he', hfst⟩
        rcases mem_ainsert he' with rfl | he'mem
        · exact he hfst.symm
        · exact h.1 (List.mem_map.2 ⟨e', he'mem, hfst⟩)
      simp only [ainsert, if_neg he, List.map_cons]
      exact List.nodup_cons.2 ⟨hk, ih h.2⟩

theorem ainsert_cons_ne {β : Type} {k k' : String} (h : k' ≠ k) (v v' : β)
    (l : List (String × β)) :
    ainsert k v ((k', v') :: l) = (k', v') :: ainsert k v l := by
  simp [ainsert, h]

/-- Rebuilding an association list with nodup keys by repeated `ainsert`
starting from a prefix. -/
theorem foldl_ainsert_cons {β : Type} (l : List (String × β)) (k : String) (v : β)
    (acc : List (String × β)) (hk : k ∉ l.map Prod.fst) :
    l.foldl (fun up e => ainsert e.1 e.2 up) ((k, v) :: acc) =
      (k, v) :: l.foldl (fun up e => ainsert e.1 e.2 up) acc := by
  induction l generalizing acc with
  | nil => rfl
  | cons e rest ih =>
    simp only [List.map_cons, List.mem_cons] at hk
    push_neg at hk
    simp only [List.foldl_cons, ainsert_cons_ne hk.1]
    exact ih _ hk.2

theorem foldl_ainsert_id {β : Type} (l : List (String × β))
    (h : (l.map Prod.fst).Nodup) :
    l.foldl (fun up e => ainsert e.1 e.2 up) [] = l := by
  induction l with
  | nil => rfl
  | cons e rest ih =>
    simp only [List.map_cons, List.nodup_cons] at h
    calc (e :: rest).foldl (fun up e => ainsert e.1 e.2 up) [] =
        rest.foldl (fun up e => ainsert e.1 e.2 up) [(e.1, e.2)] := rfl
      _ = (e.1, e.2) :: rest.foldl (fun up e => ainsert e.1 e.2 up) [] :=
        foldl_ainsert_cons rest e.1 e.2 [] h.1
      _ = e :: rest := by rw [ih h.2]

/-! ### Field-preservation lemmas for the per-record update functions -/

theorem applyChangeTracking_status (info : Record) (p m : Option String) (a : Option Bool) :
    (applyChangeTracking info p m a).status = info.status := by
  unfold applyChangeTracking
  cases a <;> dsimp only <;> split_ifs <;> rfl

theorem applyChangeTracking_status_since (info : Record) (p m : Option String)
    (a : Option Bool) :
    (applyChangeTracking info p m a).status_since = info.status_since := by
  unfold applyChangeTracking
  cases a <;> dsimp only <;> split_ifs <;> rfl

theorem mergeDisplayUpdates_status (pu : String) (pname : Option String) (pimg : String)
    (info : Record) : (mergeDisplayUpdates pu pname pimg info).status = info.status := by
  unfold mergeDisplayUpdates
  cases pname <;> dsimp only <;> split_ifs <;> rfl

theorem mergeDisplayUpdates_status_since (pu : String) (pname : Option String)
    (pimg : String) (info : Record) :
    (mergeDisplayUpdates pu pname pimg info).status_since = info.status_since := by
  unfold mergeDisplayUpdates
  cases pname <;> dsimp only <;> split_ifs <;> rfl

theorem detailFieldUpdates_status (info : Record) (it : Item) :
    (detailFieldUpdates info it).status = info.status := by
  unfold detailFieldUpdates
  dsimp only
  split <;> simp only [applyChangeTracking_status] <;> split_ifs <;> rfl

theorem detailFieldUpdates_status_since (info : Record) (it : Item) :
    (detailFieldUpdates info it).status_since = info.status_since := by
  unfold detailFieldUpdates
  dsimp only
  split <;> simp only [applyChangeTracking_status_since] <;> split_ifs <;> rfl

/-! ### Absence-sweep lemmas -/

theorem sweepOne_of_mem_present {h : String} {present : List String} {now : Time}
    {k : String} (hk : k ∈ present) (info : Record) :
    sweepOne h present now k info = info := by
  unfold sweepOne
  rw [if_neg]
  rintro ⟨-, hk', -⟩
  exact hk' hk

theorem sweepOne_of_other_host {h : String} {present : List String} {now : Time}
    {k : String} (hk : hostOf k ≠ h) (info : Record) :
    sweepOne h present now k info = info := by
  unfold sweepOne
  rw [if_neg]
  rintro ⟨hk', -, -⟩
  exact hk hk'

theorem alookup_markAbsences (h : String) (present : List String) (now : Time)
    (st : SMap) (k : String) :
    alookup k (markAbsences h present now st) =
      (alookup k st).map (sweepOne h present now k) := by
  induction st with
  | nil => rfl
  | cons e rest ih =>
    by_cases he : e.1 = k
    · subst he
      simp [markAbsences, alookup]
    · simp only [markAbsences, List.map_cons, alookup, if_neg he] at *
      exact ih

/-! ### Change-tracking price behaviour (claim C2) -/

/-- C2: after `_apply_change_tracking`, `price_changed` is true iff the
fetched price is truthy and differs from the stored price; in that case
`prev_price` becomes the old stored price (empty string when there was
none) and `price` becomes the fetched value, and in every other case
`price_changed` is false for this tick and the price fields are left
unchanged, regardless of earlier ticks' history. -/
theorem price_change_tracking_iff (info : Record) (p m : Option String) (a : Option Bool) :
    ((applyChangeTracking info p m a).price_changed = some true ↔
      (truthy p = true ∧ p ≠ info.price)) ∧
    ((truthy p = true ∧ p ≠ info.price) →
      (applyChangeTracking info p m a).prev_price = some (info.price.getD "") ∧
      (applyChangeTracking info p m a).price = p) ∧
    (¬(truthy p = true ∧ p ≠ info.price) →
      (applyChangeTracking info p m a).price_changed = some false ∧
      (applyChangeTracking info p m a).price = info.price ∧
      (applyChangeTracking info p m a).prev_price = info.prev_price) := by
  unfold applyChangeTracking
  cases a <;> dsimp only <;> split_ifs <;> simp_all <;> tauto

/-- Witness for C2 at a concrete input: stored price `$10`, fetched price
`$12`. -/
theorem price_change_tracking_iff_witness :
    (applyChangeTracking { price := some "$10" } (some "$12") none none).prev_price =
        some "$10" ∧
      (applyChangeTracking { price := some "$10" } (some "$12") none none).price =
        some "$12" :=
  (price_change_tracking_iff { price := some "$10" } (some "$12") none none).2.1
    (by decide)

/-! ### Status behaviour of the present-key merge -/

theorem mergeTrackingAndStatus_not_false (h : String) (delta : Int) (now : Time)
    (pp pm : Option String) (pa : Option Bool) (al : Option Int) (info : Record)
    (hpa : pa ≠ some false) :
    (info.status.getD 0 = 0 →
      (mergeTrackingAndStatus h delta now pp pm pa al info).1.status = some 1 ∧
      (mergeTrackingAndStatus h delta now pp pm pa al info).1.status_since = some now ∧
      (mergeTrackingAndStatus h delta now pp pm pa al info).2 =
        decide (now - info.status_since.getD now ≥ delta)) ∧
    (info.status.getD 0 ≠ 0 →
      (mergeTrackingAndStatus h delta now pp pm pa al info).1.status = some 1 ∧
      (mergeTrackingAndStatus h delta now pp pm pa al info).1.status_since =
        info.status_since ∧
      (mergeTrackingAndStatus h delta now pp pm pa al info).2 = false) := by
  unfold mergeTrackingAndStatus
  have h1 := applyChangeTracking_status info pp pm pa
  have h2 := applyChangeTracking_status_since info pp pm pa
  cases al <;> dsimp only <;> split_ifs <;> simp_all

theorem mergeExisting_absent_to_present (h : String) (delta : Int) (now : Time)
    (pu : String) (pname : Option String) (pimg : String) (pp pm : Option String)
    (pa : Option Bool) (al : Option Int) (info : Record)
    (hpa : pa ≠ some false) (hs : info.status.getD 0 = 0) :
    (mergeExisting h delta now pu pname pimg pp pm pa al info).1.status = some 1 ∧
    (mergeExisting h delta now pu pname pimg pp pm pa al info).1.status_since = some now ∧
    (mergeExisting h delta now pu pname pimg pp pm pa al info).2 =
      decide (now - info.status_since.getD now ≥ delta) := by
  unfold mergeExisting
  have hd := mergeDisplayUpdates_status pu pname pimg info
  have hd2 := mergeDisplayUpdates_status_since pu pname pimg info
  have hmt := (mergeTrackingAndStatus_not_false h delta now pp pm pa al
      (mergeDisplayUpdates pu pname pimg info) hpa).1 (by rw [hd]; exact hs)
  exact ⟨hmt.1, by rw [hmt.2.1], by rw [hmt.2.2, hd2]⟩

theorem mergeExisting_present_stays (h : String) (delta : Int) (now : Time)
    (pu : String) (pname : Option String) (pimg : String) (pp pm : Option String)
    (pa : Option Bool) (al : Option Int) (info : Record)
    (hpa : pa ≠ some false) (hs : info.status.getD 0 ≠ 0) :
    (mergeExisting h delta now pu pname pimg pp pm pa al info).1.status = some 1 ∧
    (mergeExisting h delta now pu pname pimg pp pm pa al info).1.status_since =
      info.status_since ∧
    (mergeExisting h delta now pu pname pimg pp pm pa al info).2 = false := by
  unfold mergeExisting
  have hd := mergeDisplayUpdates_status pu pname pimg info
  have hd2 := mergeDisplayUpdates_status_since pu pname pimg info
  have hmt := (mergeTrackingAndStatus_not_false h delta now pp pm pa al
      (mergeDisplayUpdates pu pname pimg info) hpa).2 (by rw [hd]; exact hs)
  exact ⟨hmt.1, by rw [hmt.2.1, hd2], hmt.2.2⟩

theorem mergeRecord_status_absent (h : String) (delta : Int) (now : Time)
    (acc : ObsAccum) (key : String) (info : Record) (av : Option Bool)
    (hav : alookup key acc.avails = some av) (havf : av ≠ some false)
    (hs : info.status.getD 0 = 0) :
    (mergeRecord h delta now acc key (some info)).1.status = some 1 ∧
    (mergeRecord h delta now acc key (some info)).1.status_since = some now ∧
    (mergeRecord h delta now acc key (some info)).2.1 = false ∧
    (mergeRecord h delta now acc key (some info)).2.2 =
      decide (now - info.status_since.getD now ≥ delta) := by
  unfold mergeRecord
  dsimp only
  rw [hav]
  dsimp only
  have hme := mergeExisting_absent_to_present h delta now
    ((alookup key acc.urls).getD (info.url.getD ""))
    (pyOrStr (alookup key acc.names) info.name)
    ((alookup key acc.images).getD (info.image.getD ""))
    (pyOrStr (alookup key acc.prices) info.price)
    (pyOrStr (alookup key acc.msgs) info.availability_message)
    av
    (match alookup key acc.allocs with
      | some v => v
      | none => info.in_stock_allocation)
    info havf hs
  exact ⟨hme.1, hme.2.1, rfl, hme.2.2⟩

theorem mergeRecord_status_present (h : String) (delta : Int) (now : Time)
    (acc : ObsAccum) (key : String) (info : Record) (av : Option Bool)
    (hav : alookup key acc.avails = some av) (havf : av ≠ some false)
    (hs : info.status.getD 0 ≠ 0) :
    (mergeRecord h delta now acc key (some info)).1.status = some 1 ∧
    (mergeRecord h delta now acc key (some info)).1.status_since = info.status_since ∧
    (mergeRecord h delta now acc key (some info)).2.1 = false ∧
    (mergeRecord h delta now acc key (some info)).2.2 = false := by
  unfold mergeRecord
  dsimp only
  rw [hav]
  dsimp only
  have hme := mergeExisting_present_stays h delta now
    ((alookup key acc.urls).getD (info.url.getD ""))
    (pyOrStr (alookup key acc.names) info.name)
    ((alookup key acc.images).getD (info.image.getD ""))
    (pyOrStr (alookup key acc.prices) info.price)
    (pyOrStr (alookup key acc.msgs) info.availability_message)
    av
    (match alookup key acc.allocs with
      | some v => v
      | none => info.in_stock_allocation)
    info havf hs
  exact ⟨hme.1, hme.2.1, rfl, hme.2.2⟩

theorem mergeRecord_none_spec (h : String) (delta : Int) (now : Time)
    (acc : ObsAccum) (key : String) (av : Option Bool)
    (hav : alookup key acc.avails = some av) :
    (mergeRecord h delta now acc key none).1.first_seen = some now ∧
    (mergeRecord h delta now acc key none).1.status_since = some now ∧
    (mergeRecord h delta now acc key none).1.status =
      some (if av = some false then 0 else 1) ∧
    (mergeRecord h delta now acc key none).2.1 = true ∧
    (mergeRecord h delta now acc key none).2.2 = false := by
  unfold mergeRecord
  dsimp only
  rw [hav]
  dsimp only
  unfold makePresentRecord
  exact ⟨rfl, rfl, rfl, rfl, rfl⟩

/-! ### Fold lemmas for the merge and detail passes -/

theorem mem_append_ite {k k' : String} (l : List String) (b : Bool) :
    k ∈ l ++ (if b then [k'] else []) ↔ k ∈ l ∨ (b = true ∧ k = k') := by
  cases b <;> simp

theorem mergeFold_not_mem (h : String) (delta : Int) (now : Time) (acc : ObsAccum)
    {k : String} :
    ∀ (keys : List String) (st : SMap) (news rest : List String), k ∉ keys →
      alookup k (mergeFold h delta now acc keys st news rest).1 = alookup k st ∧
      (k ∈ (mergeFold h delta now acc keys st news rest).2.1 ↔ k ∈ news) ∧
      (k ∈ (mergeFold h delta now acc keys st news rest).2.2 ↔ k ∈ rest) := by
  intro keys
  induction keys with
  | nil => intro st news rest _; exact ⟨rfl, Iff.rfl, Iff.rfl⟩
  | cons k' ks ih =>
    intro st news rest hk
    simp only [List.mem_cons] at hk
    push_neg at hk
    obtain ⟨hk1, hk2⟩ := hk
    simp only [mergeFold]
    obtain ⟨ih1, ih2, ih3⟩ := ih _ _ _ hk2
    refine ⟨ih1.trans (alookup_ainsert_ne (fun h => hk1 h.symm) _ _), ?_, ?_⟩
    · rw [ih2, mem_append_ite]
      simp [hk1]
    · rw [ih3, mem_append_ite]
      simp [hk1]

theorem mergeFold_spec (h : String) (delta : Int) (now : Time) (acc : ObsAccum)
    {k : String} (ks₁ : List String) :
    ∀ (ks₂ : List String) (st : SMap) (news rest : List String),
      k ∉ ks₁ → k ∉ ks₂ →
      alookup k (mergeFold h delta now acc (ks₁ ++ k :: ks₂) st news rest).1 =
        some (mergeRecord h delta now acc k (alookup k st)).1 ∧
      (k ∈ (mergeFold h delta now acc (ks₁ ++ k :: ks₂) st news rest).2.1 ↔
        k ∈ news ∨ (mergeRecord h delta now acc k (alookup k st)).2.1 = true) ∧
      (k ∈ (mergeFold h delta now acc (ks₁ ++ k :: ks₂) st news rest).2.2 ↔
        k ∈ rest ∨ (mergeRecord h delta now acc k (alookup k st)).2.2 = true) := by
  induction ks₁ with
  | nil =>
    intro ks₂ st news rest _ h2
    simp only [List.nil_append, mergeFold]
    obtain ⟨f1, f2, f3⟩ := mergeFold_not_mem h delta now acc _ _ _ _ h2
    refine ⟨f1.trans (alookup_ainsert_self _ _ _), ?_, ?_⟩
    · rw [f2, mem_append_ite]
      constructor
      · rintro (hn | ⟨hb, -⟩)
        · exact Or.inl hn
        · exact Or.inr hb
      · rintro (hn | hb)
        · exact Or.inl hn
        · exact Or.inr ⟨hb, rfl⟩
    · rw [f3, mem_append_ite]
      constructor
      · rintro (hn | ⟨hb, -⟩)
        · exact Or.inl hn
        · exact Or.inr hb
      · rintro (hn | hb)
        · exact Or.inl hn
        · exact Or.inr ⟨hb, rfl⟩
  | cons k' ks ih =>
    intro ks₂ st news rest h1 h2
    simp only [List.mem_cons] at h1
    push_neg at h1
    obtain ⟨h1a, h1b⟩ := h1
    simp only [List.cons_append, mergeFold]
    obtain ⟨i1, i2, i3⟩ := ih ks₂ (ainsert k' (mergeRecord h delta now acc k'
      (alookup k' st)).1 st) _ _ h1b h2
    rw [alookup_ainsert_ne (fun hh => h1a hh.symm)] at i1 i2 i3
    simp only [List.append_eq] at i1 i2 i3 ⊢
    refine ⟨i1, ?_, ?_⟩
    · rw [i2, mem_append_ite]
      simp [h1a]
    · rw [i3, mem_append_ite]
      simp [h1a]

theorem detailStep_lookup_ne (delta : Int) (now : Time) (fd : String → Option Item)
    (present : List String) (st : SMap) {k k' : String} (hne : k' ≠ k) :
    alookup k (detailStep delta now fd present st k').1 = alookup k st := by
  unfold detailStep
  split_ifs
  · rfl
  · cases fd (codeOf k') with
    | none => rfl
    | some it =>
      dsimp only
      cases alookup k' st with
      | none => rfl
      | some info => exact alookup_ainsert_ne hne _ _

theorem detailStep_skip (delta : Int) (now : Time) (fd : String → Option Item)
    (present : List String) (st : SMap) {k : String}
    (hk : k ∈ present ∨ fd (codeOf k) = none) :
    detailStep delta now fd present st k = (st, false) := by
  unfold detailStep
  rcases hk with hk | hk
  · rw [if_pos hk]
  · split_ifs
    · rfl
    · rw [hk]

theorem detailFold_frame (delta : Int) (now : Time) (fd : String → Option Item)
    (present : List String) {k : String}
    (hk : k ∈ present ∨ fd (codeOf k) = none) :
    ∀ (keys : List String) (st : SMap) (rest : List String),
      alookup k (detailFold delta now fd present keys st rest).1 = alookup k st ∧
      (k ∈ (detailFold delta now fd present keys st rest).2 ↔ k ∈ rest) := by
  intro keys
  induction keys with
  | nil => intro st rest; exact ⟨rfl, Iff.rfl⟩
  | cons k' ks ih =>
    intro st rest
    by_cases hkk : k' = k
    · subst hkk
      simp only [detailFold, detailStep_skip delta now fd present st hk]
      simpa using ih st rest
    · simp only [detailFold]
      obtain ⟨i1, i2⟩ := ih (detailStep delta now fd present st k').1
        (rest ++ if (detailStep delta now fd present st k').2 then [k'] else [])
      refine ⟨i1.trans (detailStep_lookup_ne delta now fd present st hkk), ?_⟩
      rw [i2, mem_append_ite]
      have hkk' : ¬(k = k') := fun hke => hkk hke.symm
      simp [hkk']

theorem detailFold_lookup_of_ne_all (delta : Int) (now : Time)
    (fd : String → Option Item) (present : List String) {k : String} :
    ∀ (keys : List String) (st : SMap) (rest : List String), (∀ k' ∈ keys, k' ≠ k) →
      alookup k (detailFold delta now fd present keys st rest).1 = alookup k st := by
  intro keys
  induction keys with
  | nil => intro st rest _; rfl
  | cons k' ks ih =>
    intro st rest hall
    simp only [detailFold]
    exact (ih _ _ (fun x hx => hall x (List.mem_cons_of_mem _ hx))).trans
      (detailStep_lookup_ne delta now fd present st (hall k' (List.mem_cons_self _ _)))

theorem detailFold_skip_eq (delta : Int) (now : Time) (fd : String → Option Item)
    (present : List String) {k : String} (hk : fd (codeOf k) = none) (ks₁ : List String) :
    ∀ (ks₂ : List String) (st : SMap) (rest : List String),
      detailFold delta now fd present (ks₁ ++ k :: ks₂) st rest =
        detailFold delta now fd present (ks₁ ++ ks₂) st rest := by
  induction ks₁ with
  | nil =>
    intro ks₂ st rest
    simp only [List.nil_append, detailFold, detailStep_skip delta now fd present st (Or.inr hk)]
    simp
  | cons k' ks ih =>
    intro ks₂ st rest
    simp only [List.cons_append, detailFold]
    exact ih _ _ _

/-! ### Observation-loop lemmas -/

theorem obsStep_present (h : String) (pn : String → Option String) (acc : ObsAccum)
    (it : Item) :
    (obsStep h pn acc it).present =
      if (h ++ ":" ++ it.code) ∈ acc.present then acc.present
      else acc.present ++ [h ++ ":" ++ it.code] := rfl

theorem obsStep_count (h : String) (pn : String → Option String) (acc : ObsAccum)
    (it : Item) :
    (obsStep h pn acc it).count =
      if it.available = some false then acc.count else acc.count + 1 := rfl

theorem nodup_append_singleton {l : List String} {a : String} (h : l.Nodup)
    (ha : a ∉ l) : (l ++ [a]).Nodup := by
  simp [List.nodup_append, h, ha]

theorem foldl_obsStep_present_nodup (h : String) (pn : String → Option String) :
    ∀ (obs : List Item) (acc : ObsAccum), acc.present.Nodup →
      (obs.foldl (obsStep h pn) acc).present.Nodup := by
  intro obs
  induction obs with
  | nil => intro acc hacc; exact hacc
  | cons it rest ih =>
    intro acc hacc
    refine ih _ ?_
    rw [obsStep_present]
    split_ifs with hmem
    · exact hacc
    · exact nodup_append_singleton hacc hmem

theorem observe_present_nodup (h : String) (pn : String → Option String)
    (obs : List Item) : (observe h pn obs).present.Nodup :=
  foldl_obsStep_present_nodup h pn obs {} List.nodup_nil

theorem foldl_obsStep_count (h : String) (pn : String → Option String) :
    ∀ (obs : List Item) (acc : ObsAccum),
      (obs.foldl (obsStep h pn) acc).count =
        acc.count + (obs.filter (fun it => it.available ≠ some false)).length := by
  intro obs
  induction obs with
  | nil => intro acc; simp
  | cons it rest ih =>
    intro acc
    rw [List.foldl_cons, ih]
    by_cases hav : it.available = some false
    · simp [obsStep_count, hav]
    · simp only [obsStep_count, if_neg hav, List.filter_cons]
      simp [hav]
      omega

theorem observe_count (h : String) (pn : String → Option String) (obs : List Item) :
    (observe h pn obs).count =
      (obs.filter (fun it => it.available ≠ some false)).length := by
  have := foldl_obsStep_count h pn obs {}
  simpa [observe] using this

theorem foldl_obsStep_present_mem (h : String) (pn : String → Option String)
    {k : String} :
    ∀ (obs : List Item) (acc : ObsAccum), k ∈ (obs.foldl (obsStep h pn) acc).present →
      k ∈ acc.present ∨ ∃ it ∈ obs, k = h ++ ":" ++ it.code := by
  intro obs
  induction obs with
  | nil => intro acc hk; exact Or.inl hk
  | cons it rest ih =>
    intro acc hk
    rcases ih _ hk with hk' | ⟨it', hit', rfl⟩
    · rw [obsStep_present] at hk'
      split_ifs at hk' with hmem
      · exact Or.inl hk'
      · rcases List.mem_append.1 hk' with hk'' | hk''
        · exact Or.inl hk''
        · exact Or.inr ⟨it, List.mem_cons_self _ _, (List.mem_singleton.1 hk'').symm ▸ rfl⟩
    · exact Or.inr ⟨it', List.mem_cons_of_mem _ hit', rfl⟩

theorem observe_present_mem (h : String) (pn : String → Option String)
    {k : String} (obs : List Item) (hk : k ∈ (observe h pn obs).present) :
    ∃ it ∈ obs, k = h ++ ":" ++ it.code := by
  rcases foldl_obsStep_present_mem h pn obs {} hk with hfalse | hgood
  · simp [ObsAccum.present] at hfalse
  · exact hgood

/-! ### Composite-key string lemmas -/

theorem splitFirst_append {l₁ l₂ : List Char} (h : ':' ∉ l₁) :
    splitFirst ':' (l₁ ++ ':' :: l₂) = some (l₁, l₂) := by
  induction l₁ with
  | nil => simp [splitFirst]
  | cons c cs ih =>
    simp only [List.mem_cons] at h
    push_neg at h
    have hc : ¬(c = ':') := fun he => h.1 he.symm
    simp [splitFirst, hc, ih h.2]

theorem hostOf_composite {h c : String} (hnc : hasColon h = false) :
    hostOf (h ++ ":" ++ c) = h := by
  have hmem : ':' ∉ h.toList := by simpa [hasColon] using hnc
  have hdata : (h ++ ":" ++ c).toList = h.toList ++ ':' :: c.toList := by
    rw [show (h ++ ":" ++ c).toList = (h ++ ":").toList ++ c.toList from
      String.data_append _ _]
    rw [show (h ++ ":").toList = h.toList ++ [':'] from String.data_append _ _]
    simp
  rw [hostOf, hdata, splitFirst_append hmem]
  rfl

theorem mem_present_hostOf {h : String} (pn : String → Option String)
    {k : String} (obs : List Item) (hnc : hasColon h = false)
    (hk : k ∈ (observe h pn obs).present) : hostOf k = h := by
  rcases observe_present_mem h pn obs hk with ⟨it, -, rfl⟩
  exact hostOf_composite hnc

/-! ### Splitting a nodup list at a member -/

theorem nodup_mem_split {l : List String} {a : String} (hn : l.Nodup) (ha : a ∈ l) :
    ∃ s t, l = s ++ a :: t ∧ a ∉ s ∧ a ∉ t := by
  rcases List.append_of_mem ha with ⟨s, t, rfl⟩
  rw [List.nodup_append] at hn
  refine ⟨s, t, rfl, ?_, ?_⟩
  · intro hs
    exact (List.disjoint_left.1 hn.2.2 hs) (List.mem_cons_self _ _)
  · exact (List.nodup_cons.1 hn.2.1).1

/-! ### Tick-level behaviour for a present key -/

theorem tick_lookup_present (h : String) (delta : Int) (now : Time)
    (fd : String → Option Item) (pn : String → Option String) (obs : List Item)
    (st : SMap) {key : String} (hmem : key ∈ (observe h pn obs).present) :
    alookup key (tick h delta now fd pn obs st).state =
      some (mergeRecord h delta now (observe h pn obs) key (alookup key st)).1 ∧
    (key ∈ (tick h delta now fd pn obs st).new_keys ↔
      (mergeRecord h delta now (observe h pn obs) key (alookup key st)).2.1 = true) ∧
    (key ∈ (tick h delta now fd pn obs st).restocked_keys ↔
      (mergeRecord h delta now (observe h pn obs) key (alookup key st)).2.2 = true) := by
  obtain ⟨s, t, hsplit, hs, ht⟩ := nodup_mem_split (observe_present_nodup h pn obs) hmem
  have hst1 : alookup key (markAbsences h (observe h pn obs).present now st) =
      alookup key st := by
    rw [alookup_markAbsences]
    cases alookup key st with
    | none => rfl
    | some r => simp [sweepOne_of_mem_present hmem]
  obtain ⟨m1, m2, m3⟩ := mergeFold_spec h delta now (observe h pn obs) s t
    (markAbsences h (observe h pn obs).present now st) [] [] hs ht
  rw [← hsplit] at m1 m2 m3
  rw [hst1] at m1 m2 m3
  unfold tick
  dsimp only
  set A := observe h pn obs with hA
  set M := mergeFold h delta now A A.present (markAbsences h A.present now st) [] []
    with hM
  set K := (M.1.map Prod.fst).filter (fun k => hostOf k = h) with hK
  have hdf := detailFold_frame delta now fd A.present (Or.inl hmem) K M.1 []
  refine ⟨?_, ?_, ?_⟩
  · rw [hdf.1, m1]
  · rw [m2]
    simp
  · rw [List.mem_append, m3, hdf.2]
    simp

/-! ### Key-migration lemmas -/

theorem toList_composite (a b : String) :
    (a ++ ":" ++ b).toList = a.toList ++ ':' :: b.toList := by
  rw [show (a ++ ":" ++ b).toList = (a ++ ":").toList ++ b.toList from
    String.data_append _ _]
  rw [show (a ++ ":").toList = a.toList ++ [':'] from String.data_append _ _]
  simp

theorem hasColon_composite (a b : String) : hasColon (a ++ ":" ++ b) = true := by
  rw [hasColon, toList_composite]
  simp

theorem migrateStep_ainsert (dh : String) (up : SMap) (e : String × Record) :
    ∃ k v, migrateStep dh up e = ainsert k v up := by
  unfold migrateStep
  split_ifs <;> exact ⟨_, _, rfl⟩

theorem mem_keys_ainsert_self {β : Type} (k : String) (v : β) (l : List (String × β)) :
    k ∈ (ainsert k v l).map Prod.fst := by
  induction l with
  | nil => simp [ainsert]
  | cons e rest ih =>
    by_cases he : e.1 = k
    · simp [ainsert, he]
    · simp only [ainsert, if_neg he, List.map_cons, List.mem_cons]
      exact Or.inr ih

theorem mem_keys_ainsert_mono {β : Type} {j : String} (k : String) (v : β)
    {l : List (String × β)} (h : j ∈ l.map Prod.fst) :
    j ∈ (ainsert k v l).map Prod.fst := by
  induction l with
  | nil => cases h
  | cons e rest ih =>
    simp only [List.map_cons, List.mem_cons] at h
    by_cases he : e.1 = k
    · rcases h with rfl | h
      · simp [ainsert, he]
      · simp only [ainsert, if_pos he, List.map_cons, List.mem_cons]
        exact Or.inr h
    · rcases h with rfl | h
      · simp [ainsert, he]
      · simp only [ainsert, if_neg he, List.map_cons, List.mem_cons]
        exact Or.inr (ih h)

theorem foldl_migrate_keys_mono (dh : String) {j : String} :
    ∀ (st : List (String × Record)) (acc : SMap), j ∈ acc.map Prod.fst →
      j ∈ (st.foldl (migrateStep dh) acc).map Prod.fst := by
  intro st
  induction st with
  | nil => intro acc h; exact h
  | cons e rest ih =>
    intro acc h
    obtain ⟨k, v, hkv⟩ := migrateStep_ainsert dh acc e
    rw [List.foldl_cons, hkv]
    exact ih _ (mem_keys_ainsert_mono k v h)

theorem foldl_migrate_mem_keys (dh k : String) (v : Record) :
    ∀ (st : List (String × Record)) (acc : SMap), (k, v) ∈ st → hasColon k = false →
      (dh ++ ":" ++ k) ∈ (st.foldl (migrateStep dh) acc).map Prod.fst := by
  intro st
  induction st with
  | nil => intro acc h; cases h
  | cons e rest ih =>
    intro acc hmem hnc
    rcases List.mem_cons.1 hmem with heq | hmem'
    · rw [List.foldl_cons, ← heq]
      refine foldl_migrate_keys_mono dh rest _ ?_
      unfold migrateStep
      rw [if_neg (by rw [hnc]; exact Bool.false_ne_true)]
      exact mem_keys_ainsert_self _ _ _
    · rw [List.foldl_cons]
      exact ih _ hmem' hnc

/-- Invariant of migrated maps: every key is composite and every record
carries a host. -/
def Migrated (e : String × Record) : Prop :=
  hasColon e.1 = true ∧ e.2.host.isSome = true

theorem migrateStep_migrated (dh : String) (up : SMap) (e e' : String × Record)
    (hup : ∀ x ∈ up, Migrated x) (he' : e' ∈ migrateStep dh up e) : Migrated e' := by
  unfold migrateStep at he'
  by_cases hc : hasColon e.1 = true
  · rw [if_pos hc] at he'
    dsimp only at he'
    by_cases hh : e.2.host.isSome = true
    · rw [if_pos hh] at he'
      rcases mem_ainsert he' with rfl | hmem
      · exact ⟨hc, hh⟩
      · exact hup _ hmem
    · rw [if_neg hh] at he'
      rcases mem_ainsert he' with rfl | hmem
      · exact ⟨hc, rfl⟩
      · exact hup _ hmem
  · rw [if_neg hc] at he'
    dsimp only at he'
    by_cases hh : e.2.host.isSome = true
    · rw [if_pos hh] at he'
      rcases mem_ainsert he' with rfl | hmem
      · exact ⟨hasColon_composite _ _, hh⟩
      · exact hup _ hmem
    · rw [if_neg hh] at he'
      rcases mem_ainsert he' with rfl | hmem
      · exact ⟨hasColon_composite _ _, rfl⟩
      · exact hup _ hmem

theorem foldl_migrate_migrated (dh : String) :
    ∀ (st : List (String × Record)) (acc : SMap), (∀ x ∈ acc, Migrated x) →
      ∀ e ∈ st.foldl (migrateStep dh) acc, Migrated e := by
  intro st
  induction st with
  | nil => intro acc hacc; exact hacc
  | cons e rest ih =>
    intro acc hacc
    exact ih _ (fun x hx => migrateStep_migrated dh acc e x hacc hx)

theorem migrate_result_migrated (st : SMap) (dh : String) :
    ∀ e ∈ migrateKeysToComposite st dh, Migrated e :=
  foldl_migrate_migrated dh st [] (by intro x hx; cases hx)

theorem migrateStep_of_migrated (dh : String) (up : SMap) (e : String × Record)
    (he : Migrated e) : migrateStep dh up e = ainsert e.1 e.2 up := by
  unfold migrateStep
  rw [if_pos he.1]
  dsimp only
  rw [if_pos he.2]

theorem foldl_migrate_of_migrated (dh : String) :
    ∀ (st : List (String × Record)) (acc : SMap), (∀ e ∈ st, Migrated e) →
      st.foldl (migrateStep dh) acc = st.foldl (fun up e => ainsert e.1 e.2 up) acc := by
  intro st
  induction st with
  | nil => intro acc _; rfl
  | cons e rest ih =>
    intro acc hall
    rw [List.foldl_cons, List.foldl_cons,
      migrateStep_of_migrated dh acc e (hall e (List.mem_cons_self _ _))]
    exact ih _ (fun x hx => hall x (List.mem_cons_of_mem _ hx))

theorem migrate_keys_nodup (st : SMap) (dh : String) :
    ((migrateKeysToComposite st dh).map Prod.fst).Nodup := by
  have : ∀ (l : List (String × Record)) (acc : SMap), (acc.map Prod.fst).Nodup →
      ((l.foldl (migrateStep dh) acc).map Prod.fst).Nodup := by
    intro l
    induction l with
    | nil => intro acc hacc; exact hacc
    | cons e rest ih =>
      intro acc hacc
      obtain ⟨k, v, hkv⟩ := migrateStep_ainsert dh acc e
      rw [List.foldl_cons, hkv]
      exact ih _ (ainsert_keys_nodup k v hacc)
  exact this st [] List.nodup_nil

/-! ### Claim theorems -/

/-- C1: a stored record with ABSENT status that is observed again in the
listing merge with an effective availability signal that is not explicitly
false is recorded as restocked iff `now - status_since ≥ restock_window`,
and in every such ABSENT-to-PRESENT case the tick sets `status = PRESENT`
and `status_since = now`. -/
theorem absent_reobserved_restock_iff (h : String) (delta : Int) (now : Time)
    (fd : String → Option Item) (pn : String → Option String) (obs : List Item)
    (st : SMap) (key : String) (r : Record) (av : Option Bool) (t : Time)
    (hmem : key ∈ (observe h pn obs).present)
    (hav : alookup key (observe h pn obs).avails = some av)
    (havf : av ≠ some false)
    (hst : alookup key st = some r)
    (hstatus : r.status = some 0)
    (hsince : r.status_since = some t) :
    (key ∈ (tick h delta now fd pn obs st).restocked_keys ↔ now - t ≥ delta) ∧
    ∃ r', alookup key (tick h delta now fd pn obs st).state = some r' ∧
      r'.status = some 1 ∧ r'.status_since = some now := by
  obtain ⟨g1, -, g3⟩ := tick_lookup_present h delta now fd pn obs st hmem
  rw [hst] at g1 g3
  have hs0 : r.status.getD 0 = 0 := by rw [hstatus]; rfl
  obtain ⟨q1, q2, -, q4⟩ :=
    mergeRecord_status_absent h delta now (observe h pn obs) key r av hav havf hs0
  refine ⟨?_, _, g1, q1, q2⟩
  rw [g3, q4, hsince]
  simp

/-- Witness for C1: an item absent since time 0, reobserved at time 5 with a
3-unit restock window, is restocked and flipped back to PRESENT. -/
theorem absent_reobserved_restock_iff_witness :
    ("s.com:1" ∈ (tick "s.com" 3 5 (fun _ => none) (fun _ => none) [{ code := "1" }]
        [("s.com:1", { status := some 0, status_since := some 0 })]).restocked_keys ↔
      (5 : Int) - 0 ≥ 3) ∧
    ∃ r', alookup "s.com:1" (tick "s.com" 3 5 (fun _ => none) (fun _ => none)
        [{ code := "1" }]
        [("s.com:1", { status := some 0, status_since := some 0 })]).state = some r' ∧
      r'.status = some 1 ∧ r'.status_since = some 5 :=
  absent_reobserved_restock_iff "s.com" 3 5 (fun _ => none) (fun _ => none)
    [{ code := "1" }] [("s.com:1", { status := some 0, status_since := some 0 })]
    "s.com:1" { status := some 0, status_since := some 0 } none 0
    (by decide) (by decide) (by decide) (by decide) (by decide) (by decide)

/-- C3 counterexample: a first observation carrying `available = False`
creates the record with status ABSENT (0), not PRESENT, even though the key
is still recorded as new — refuting "initial state is always PRESENT
regardless of the observation's availability signal". -/
theorem new_record_status_cex :
    ((alookup "s.com:1" (tick "s.com" 0 5 (fun _ => none) (fun _ => none)
        [{ code := "1", available := some false }] []).state).map Record.status =
      some (some 0)) ∧
    "s.com:1" ∈ (tick "s.com" 0 5 (fun _ => none) (fun _ => none)
        [{ code := "1", available := some false }] []).new_keys ∧
    some (some (0 : Int)) ≠ some (some (1 : Int)) := by decide

/-- C3 amended: for every observed key with no prior record, the tick
creates a record with `first_seen = now` and `status_since = now` and
records the key as new regardless of the availability signal, but the
initial status is PRESENT only when the effective availability is not
explicitly false, and ABSENT when it is explicitly false. -/
theorem new_record_creation_fields (h : String) (delta : Int) (now : Time)
    (fd : String → Option Item) (pn : String → Option String) (obs : List Item)
    (st : SMap) (key : String) (av : Option Bool)
    (hmem : key ∈ (observe h pn obs).present)
    (hav : alookup key (observe h pn obs).avails = some av)
    (hnew : alookup key st = none) :
    ∃ r, alookup key (tick h delta now fd pn obs st).state = some r ∧
      key ∈ (tick h delta now fd pn obs st).new_keys ∧
      r.first_seen = some now ∧ r.status_since = some now ∧
      r.status = some (if av = some false then 0 else 1) := by
  obtain ⟨g1, g2, -⟩ := tick_lookup_present h delta now fd pn obs st hmem
  rw [hnew] at g1 g2
  obtain ⟨q1, q2, q3, q4, -⟩ :=
    mergeRecord_none_spec h delta now (observe h pn obs) key av hav
  exact ⟨_, g1, g2.mpr q4, q1, q2, q3⟩

/-- Witness for C3 (amended) at a concrete input: a brand-new item with an
explicitly false availability is created ABSENT and recorded as new. -/
theorem new_record_creation_fields_witness :
    ∃ r, alookup "s.com:1" (tick "s.com" 0 5 (fun _ => none) (fun _ => none)
        [{ code := "1", available := some false }] []).state = some r ∧
      "s.com:1" ∈ (tick "s.com" 0 5 (fun _ => none) (fun _ => none)
        [{ code := "1", available := some false }] []).new_keys ∧
      r.first_seen = some 5 ∧ r.status_since = some 5 ∧
      r.status = some (if (some false : Option Bool) = some false then 0 else 1) :=
  new_record_creation_fields "s.com" 0 5 (fun _ => none) (fun _ => none)
    [{ code := "1", available := some false }] [] "s.com:1" (some false)
    (by decide) (by decide) (by decide)

/-- C6 counterexample: two observations of the same code in one batch are
counted twice by `present_count` even though the deduplicated present set
contains the key once (with availability not explicitly false). -/
theorem present_count_dedup_cex :
    (tick "s.com" 0 5 (fun _ => none) (fun _ => none)
        [{ code := "1" }, { code := "1" }] []).present_count = 2 ∧
    ((observe "s.com" (fun _ => none) [{ code := "1" }, { code := "1" }]).present.filter
        (fun k => alookup k (observe "s.com" (fun _ => none)
          [{ code := "1" }, { code := "1" }]).avails ≠ some (some false))).length = 1 := by
  decide

/-- C6 amended: `present_count` equals the number of observations (not
deduplicated present keys) whose availability is not explicitly false —
each duplicate observation of a code contributes separately. -/
theorem present_count_counts_observations (h : String) (delta : Int) (now : Time)
    (fd : String → Option Item) (pn : String → Option String) (obs : List Item)
    (st : SMap) :
    (tick h delta now fd pn obs st).present_count =
      (obs.filter (fun it => it.available ≠ some false)).length := by
  unfold tick
  dsimp only
  exact observe_count h pn obs

/-- C4 counterexample: a legacy key whose record carries its own stored host
(`other.com`) is nevertheless rewritten under the managed default host
(`example.com:123`), and no `other.com:123` key is produced — refuting
"resolved_host is the record's own stored host field when present". -/
theorem migration_default_host_cex :
    (migrateKeysToComposite [("123", { host := some "other.com" })] "example.com").map
        Prod.fst = ["example.com:123"] ∧
    alookup "other.com:123"
      (migrateKeysToComposite [("123", { host := some "other.com" })] "example.com") =
      none := by decide

/-- C4 amended: for every stored key lacking a `host:` prefix, the
reconciler's key migration rewrites it to `<default_host>:<code>` using the
currently managed default host unconditionally — the record's own stored
host field is ignored for the key prefix (it is only preserved, or filled
with the default host, in the record's `host` field). -/
theorem migration_resolves_default_host (dh : String) :
    (∀ (up : SMap) (k : String) (v : Record), hasColon k = false →
      migrateStep dh up (k, v) =
        ainsert (dh ++ ":" ++ k)
          (if v.host.isSome then v else { v with host := some dh }) up) ∧
    (∀ (st : SMap) (k : String) (v : Record), (k, v) ∈ st → hasColon k = false →
      (dh ++ ":" ++ k) ∈ (migrateKeysToComposite st dh).map Prod.fst) := by
  constructor
  · intro up k v hnc
    unfold migrateStep
    rw [if_neg (by rw [hnc]; exact Bool.false_ne_true)]
  · intro st k v hmem hnc
    exact foldl_migrate_mem_keys dh k v st [] hmem hnc

/-- Witness for C4 (amended): the legacy key `123` with stored host
`other.com` still migrates under the default host `example.com`. -/
theorem migration_resolves_default_host_witness :
    migrateStep "example.com" [] ("123", { host := some "other.com" }) =
      [("example.com:123", { host := some "other.com" })] := by
  rw [(migration_resolves_default_host "example.com").1 [] "123"
    { host := some "other.com" } (by decide)]
  decide

/-- C5: key migration is idempotent — migrating an already-migrated map is a
no-op — and the legacy key `123456` with default host `example.com`
migrates to `example.com:123456`, a second run leaving it unchanged. -/
theorem migration_idempotent :
    (∀ (st : SMap) (dh : String),
      migrateKeysToComposite (migrateKeysToComposite st dh) dh =
        migrateKeysToComposite st dh) ∧
    migrateKeysToComposite [("123456", {})] "example.com" =
      [("example.com:123456", { host := some "example.com" })] ∧
    migrateKeysToComposite
        (migrateKeysToComposite [("123456", {})] "example.com") "example.com" =
      migrateKeysToComposite [("123456", {})] "example.com" := by
  refine ⟨?_, by decide, by decide⟩
  intro st dh
  show (migrateKeysToComposite st dh).foldl (migrateStep dh) [] = migrateKeysToComposite st dh
  rw [foldl_migrate_of_migrated dh _ [] (migrate_result_migrated st dh)]
  exact foldl_ainsert_id _ (migrate_keys_nodup st dh)

/-- C7 counterexample: when the managed host itself contains a colon
(`e.com:8080`, as a domain with a port), a record whose key's host component
(`e.com`) differs from the managed host is still mutated by the tick —
refuting unconditional multi-host isolation. -/
theorem host_isolation_cex :
    hostOf "e.com:8080:1" ≠ "e.com:8080" ∧
    alookup "e.com:8080:1"
        (tick "e.com:8080" 0 5 (fun _ => none) (fun _ => none) [{ code := "1" }]
          [("e.com:8080:1", { status := some 1, status_since := some 0 })]).state ≠
      alookup "e.com:8080:1"
        [("e.com:8080:1", { status := some 1, status_since := some 0 })] := by decide

/-- C7 amended: provided the managed host contains no colon, the absence
sweep sets `status = ABSENT` and `status_since = now` exactly on the
managed host's stored PRESENT records that are missing from the present-key
set, and every record whose key's host differs from the managed host is
left completely unchanged by the entire tick (multi-host isolation). -/
theorem absence_sweep_and_host_isolation (h : String) (delta : Int) (now : Time)
    (fd : String → Option Item) (pn : String → Option String) (obs : List Item)
    (st : SMap) (k : String) (hnc : hasColon h = false) :
    (∀ r, alookup k st = some r → hostOf k = h → k ∉ (observe h pn obs).present →
      r.status = some 1 →
      alookup k (markAbsences h (observe h pn obs).present now st) =
        some { r with status := some 0, status_since := some now }) ∧
    (hostOf k ≠ h → alookup k (tick h delta now fd pn obs st).state = alookup k st) := by
  constructor
  · intro r hst hh hnp hs
    rw [alookup_markAbsences, hst]
    show some (sweepOne h (observe h pn obs).present now k r) = _
    rw [sweepOne, if_pos ⟨hh, hnp, by rw [hs]; rfl⟩]
  · intro hkh
    have hknp : k ∉ (observe h pn obs).present := fun hmem =>
      hkh (mem_present_hostOf pn obs hnc hmem)
    unfold tick
    dsimp only
    set A := observe h pn obs with hA
    set M := mergeFold h delta now A A.present (markAbsences h A.present now st) [] []
      with hM
    set K := (M.1.map Prod.fst).filter (fun x => hostOf x = h) with hK
    have hall : ∀ k' ∈ K, k' ≠ k := by
      intro k' hk'
      have hh' : hostOf k' = h := by
        have := (List.mem_filter.1 (hK ▸ hk')).2
        simpa using this
      exact fun he => hkh (he ▸ hh')
    rw [detailFold_lookup_of_ne_all delta now fd A.present K M.1 [] hall]
    rw [(mergeFold_not_mem h delta now A A.present
      (markAbsences h A.present now st) [] [] hknp).1]
    rw [alookup_markAbsences]
    cases alookup k st with
    | none => rfl
    | some r => simp [sweepOne_of_other_host hkh]

/-- Witness for C7 (amended) at a concrete input: with managed host `s.com`,
a record of host `o.com` is untouched by the whole tick, and a missing
PRESENT record of `s.com` is swept to ABSENT. -/
theorem absence_sweep_and_host_isolation_witness :
    (alookup "s.com:7"
        (markAbsences "s.com" (observe "s.com" (fun _ => none) [{ code := "1" }]).present 5
          [("s.com:7", { status := some 1, status_since := some 0 })]) =
      some { ({ status := some 1, status_since := some 0 } : Record) with
        status := some 0, status_since := some 5 }) ∧
    alookup "o.com:2"
        (tick "s.com" 0 5 (fun _ => none) (fun _ => none) [{ code := "1" }]
          [("o.com:2", { status := some 1 })]).state =
      alookup "o.com:2" [("o.com:2", { status := some 1 })] :=
  ⟨(absence_sweep_and_host_isolation "s.com" 0 5 (fun _ => none) (fun _ => none)
      [{ code := "1" }] [("s.com:7", { status := some 1, status_since := some 0 })]
      "s.com:7" (by decide)).1 { status := some 1, status_since := some 0 }
      (by decide) (by decide) (by decide) (by decide),
    (absence_sweep_and_host_isolation "s.com" 0 5 (fun _ => none) (fun _ => none)
      [{ code := "1" }] [("o.com:2", { status := some 1 })] "o.com:2" (by decide)).2
      (by decide)⟩

/-! ### Multi-tick preservation (claim C8) -/

theorem tick_preserves_present (h : String) (delta : Int) (now : Time)
    (fd : String → Option Item) (pn : String → Option String) (obs : List Item)
    (st : SMap) (key : String) (r : Record) (av : Option Bool)
    (hmem : key ∈ (observe h pn obs).present)
    (hav : alookup key (observe h pn obs).avails = some av)
    (havf : av ≠ some false)
    (hst : alookup key st = some r) (hstatus : r.status = some 1) :
    ∃ r', alookup key (tick h delta now fd pn obs st).state = some r' ∧
      r'.status = some 1 ∧ r'.status_since = r.status_since := by
  obtain ⟨g1, -, -⟩ := tick_lookup_present h delta now fd pn obs st hmem
  rw [hst] at g1
  have hs1 : r.status.getD 0 ≠ 0 := by rw [hstatus]; decide
  obtain ⟨q1, q2, -, -⟩ :=
    mergeRecord_status_present h delta now (observe h pn obs) key r av hav havf hs1
  exact ⟨_, g1, q1, q2⟩

theorem runTicks_preserves_present (h : String) (delta : Int) (key : String) :
    ∀ (inputs : List TickInput) (st : SMap) (r : Record),
      (∀ inp ∈ inputs, obsOK h key inp) →
      alookup key st = some r → r.status = some 1 →
      ∃ r', alookup key (runTicks h delta inputs st) = some r' ∧
        r'.status = some 1 ∧ r'.status_since = r.status_since := by
  intro inputs
  induction inputs with
  | nil => intro st r _ hst hs; exact ⟨r, hst, hs, rfl⟩
  | cons inp rest ih =>
    intro st r hall hst hs
    obtain ⟨hmem, av, hav, havf⟩ := hall inp (List.mem_cons_self _ _)
    obtain ⟨r', hr', hs', hsince'⟩ := tick_preserves_present h delta inp.now inp.fd
      inp.pn inp.obs st key r av hmem hav havf hst hs
    obtain ⟨r'', hr'', hs'', hsince''⟩ := ih _ r'
      (fun x hx => hall x (List.mem_cons_of_mem _ hx)) hr' hs'
    exact ⟨r'', hr'', hs'', by rw [hsince'', hsince']⟩

/-- C8: an item with no prior record that is observed on every one of
`1 + n` consecutive ticks, each time with an availability signal that is
not explicitly false, keeps status PRESENT throughout, and its
`status_since` is written exactly once — at the first observation — and
never modified on any subsequent tick. -/
theorem continuous_observation_status_since_once (h : String) (delta : Int)
    (key : String) (st0 : SMap) (inp0 : TickInput) (rest : List TickInput) (n : Nat)
    (hnew : alookup key st0 = none) (h0 : obsOK h key inp0)
    (hrest : ∀ inp ∈ rest, obsOK h key inp) :
    ∃ r, alookup key (runTicks h delta (inp0 :: rest.take n) st0) = some r ∧
      r.status = some 1 ∧ r.status_since = some inp0.now := by
  obtain ⟨hmem, av, hav, havf⟩ := h0
  obtain ⟨g1, -, -⟩ := tick_lookup_present h delta inp0.now inp0.fd inp0.pn inp0.obs
    st0 hmem
  rw [hnew] at g1
  obtain ⟨-, q2, q3, -, -⟩ :=
    mergeRecord_none_spec h delta inp0.now (observe h inp0.pn inp0.obs) key av hav
  have hq3 : (mergeRecord h delta inp0.now (observe h inp0.pn inp0.obs) key
      none).1.status = some 1 := by
    rw [q3, if_neg havf]
  have hstep : runTicks h delta (inp0 :: rest.take n) st0 =
      runTicks h delta (rest.take n)
        (tick h delta inp0.now inp0.fd inp0.pn inp0.obs st0).state := rfl
  rw [hstep]
  obtain ⟨r'', hr'', hs'', hsince''⟩ := runTicks_preserves_present h delta key
    (rest.take n) _ _ (fun x hx => hrest x (List.take_subset n rest hx)) g1 hq3
  exact ⟨r'', hr'', hs'', by rw [hsince'', q2]⟩

/-- Witness for C8: an item observed at ticks 5 and 9 keeps status PRESENT
and `status_since = 5` from the first observation. -/
theorem continuous_observation_status_since_once_witness :
    ∃ r, alookup "s.com:1" (runTicks "s.com" 3
        ({ now := 5, obs := [{ code := "1" }], fd := (fun _ => none),
           pn := (fun _ => none) } ::
          List.take 1
            [{ now := 9, obs := [{ code := "1" }], fd := (fun _ => none),
               pn := (fun _ => none) }]) []) = some r ∧
      r.status = some 1 ∧
      r.status_since = some 5 :=
  continuous_observation_status_since_once "s.com" 3 "s.com:1" []
    { now := 5, obs := [{ code := "1" }], fd := (fun _ => none), pn := (fun _ => none) }
    [{ now := 9, obs := [{ code := "1" }], fd := (fun _ => none),
       pn := (fun _ => none) }] 1
    (by decide) ⟨by decide, none, by decide, by decide⟩
    (by
      intro inp hi
      rw [List.mem_singleton] at hi
      subst hi
      exact ⟨by decide, none, by decide, by decide⟩)

/-- C9: in the detail re-check pass, a stored key whose detail lookup fails
(raises or returns no observation) is never mutated — its record is exactly
what it was before the pass — and the failure behaves exactly like skipping
that key, so it never aborts the pass for the remaining keys. -/
theorem detail_failure_skips_record (delta : Int) (now : Time)
    (fd : String → Option Item) (present : List String) (k : String)
    (hfail : fd (codeOf k) = none) :
    (∀ (keys : List String) (st : SMap) (rest : List String),
      alookup k (detailFold delta now fd present keys st rest).1 = alookup k st) ∧
    (∀ (ks₁ ks₂ : List String) (st : SMap) (rest : List String),
      detailFold delta now fd present (ks₁ ++ k :: ks₂) st rest =
        detailFold delta now fd present (ks₁ ++ ks₂) st rest) := by
  constructor
  · intro keys st rest
    exact (detailFold_frame delta now fd present (Or.inr hfail) keys st rest).1
  · intro ks₁ ks₂ st rest
    exact detailFold_skip_eq delta now fd present hfail ks₁ ks₂ st rest

/-- Witness for C9: with a detail fetcher that always fails, the record of
`a.com:1` is unchanged by the detail pass. -/
theorem detail_failure_skips_record_witness :
    alookup "a.com:1" (detailFold 0 5 (fun _ => none) [] ["a.com:1"]
        [("a.com:1", { status := some 1 })] []).1 =
      alookup "a.com:1" [("a.com:1", { status := some 1 })] :=
  (detail_failure_skips_record 0 5 (fun _ => none) [] "a.com:1" (by decide)).1
    ["a.com:1"] [("a.com:1", { status := some 1 })] []

/-- C10: a successful detail observation whose availability is neither
explicitly true nor explicitly false leaves `status` and `status_since`
unchanged and emits no restocked flag, while the non-status updates (url,
name, image, change tracking, allocation) are still applied; moreover an
absent record can come out of the detail body with a non-absent status only
when the detail reports `available = True`. -/
theorem detail_unknown_availability_keeps_status (delta : Int) (now : Time)
    (info : Record) (it : Item) (hna : it.available = none) :
    (detailApply delta now info it).1.status = info.status ∧
    (detailApply delta now info it).1.status_since = info.status_since ∧
    (detailApply delta now info it).2 = false ∧
    (detailApply delta now info it).1 = detailFieldUpdates info it ∧
    (∀ it₂ : Item, info.status.getD 0 = 0 →
      (detailApply delta now info it₂).1.status.getD 0 ≠ 0 →
      it₂.available = some true) := by
  have heq : detailApply delta now info it = (detailFieldUpdates info it, false) := by
    unfold detailApply
    rw [hna]
  refine ⟨?_, ?_, ?_, ?_, ?_⟩
  · rw [heq]; exact detailFieldUpdates_status info it
  · rw [heq]; exact detailFieldUpdates_status_since info it
  · rw [heq]
  · rw [heq]
  · intro it₂ hs0 hs1
    rcases hit : it₂.available with _ | b
    · exfalso
      apply hs1
      unfold detailApply
      rw [hit]
      dsimp only
      rw [detailFieldUpdates_status, hs0]
    · cases b
      · exfalso
        apply hs1
        unfold detailApply
        rw [hit]
        dsimp only
        rfl
      · rfl

/-- Witness for C10: a detail observation with unknown availability and a
fresh price leaves the ABSENT status and its timestamp untouched. -/
theorem detail_unknown_availability_keeps_status_witness :
    (detailApply 3 9 { status := some 0, status_since := some 1 }
        { code := "1", price := some "$5" }).1.status = some 0 ∧
    (detailApply 3 9 { status := some 0, status_since := some 1 }
        { code := "1", price := some "$5" }).1.status_since = some 1 ∧
    (detailApply 3 9 { status := some 0, status_since := some 1 }
        { code := "1", price := some "$5" }).2 = false :=
  let m := detail_unknown_availability_keeps_status 3 9
    { status := some 0, status_since := some 1 } { code := "1", price := some "$5" }
    (by decide)
  ⟨m.1, m.2.1, m.2.2.1⟩

end StoreWatcher
